import Mathlib

/-!
Verification of the fragment reassembly and package synthesis engine of the
grawlix repository (grawlix/output/epub.py) against its natural language
specification.  The Python source is shallowly embedded: strings are lists of
characters, byte strings are lists of naturals, dictionaries are association
lists preserving insertion order (as Python dictionaries do), and Python
exceptions are modelled with Except.
-/

set_option maxRecDepth 4000

namespace Grawlix

/-- Python strings are modelled as lists of characters. -/
abbrev Text := List Char

/-- Convert a Lean string literal to the Text model. -/
def lit (s : String) : Text := s.data

/-- Python whitespace, as recognised by str.strip and the regex class \s. -/
def pyIsSpace (c : Char) : Bool :=
  c = ' ' || c = '\t' || c = '\n' || c = '\r' || c.toNat = 11 || c.toNat = 12

/-- Python str.strip(): remove leading and trailing whitespace. -/
def strip (t : Text) : Text :=
  ((t.dropWhile pyIsSpace).reverse.dropWhile pyIsSpace).reverse

/-- Python str.split(sep) for a one character separator: every occurrence
splits, empty chunks are kept, and the result is never empty. -/
def splitChar (sep : Char) : Text → List Text
  | [] => [[]]
  | c :: rest =>
    if c = sep then [] :: splitChar sep rest
    else
      match splitChar sep rest with
      | [] => [[c]]
      | piece :: pieces => (c :: piece) :: pieces

/-- Whether the first list is a leading segment of the second. -/
def leadsT : Text → Text → Bool
  | [], _ => true
  | _ :: _, [] => false
  | p :: ps, c :: cs => p = c && leadsT ps cs

/-- Python str.startswith. -/
def startsWithT (t pat : Text) : Bool := leadsT pat t

/-- Python str.endswith. -/
def endsWithT (t pat : Text) : Bool := leadsT pat.reverse t.reverse

/-- Python substring containment (the in operator on str). -/
def containsSub (needle hay : Text) : Bool :=
  match hay with
  | [] => leadsT needle []
  | _ :: rest => leadsT needle hay || containsSub needle rest

/-- Python str.lower restricted to ASCII, which is all the code relies on. -/
def toLowerT (t : Text) : Text := t.map Char.toLower

/-- os.path.basename: the component after the last slash. -/
def basenameT (t : Text) : Text := (splitChar '/' t).getLast (by
  induction t with
  | nil => simp [splitChar]
  | cons c rest ih =>
    simp only [splitChar]
    split
    · simp
    · split
      · simp
      · simp_all)

/-- One pass of Python str.replace with an explicit fuel argument; each step
consumes at least one character, so fuel equal to the length suffices. -/
def replaceAllAux (pat rep : Text) : Nat → Text → Text
  | 0, t => t
  | _ + 1, [] => []
  | fuel + 1, c :: rest =>
    if pat ≠ [] ∧ leadsT pat (c :: rest) = true then
      rep ++ replaceAllAux pat rep fuel (rest.drop (pat.length - 1))
    else c :: replaceAllAux pat rep fuel rest

/-- Python str.replace(pat, rep): replace all occurrences, left to right. -/
def replaceAllT (t pat rep : Text) : Text := replaceAllAux pat rep t.length t

/-- Python str.replace(pat, rep, 1): replace the first occurrence only. -/
def replaceFirst (pat rep : Text) : Text → Text
  | [] => []
  | c :: rest =>
    if pat ≠ [] ∧ leadsT pat (c :: rest) = true then rep ++ (c :: rest).drop pat.length
    else c :: replaceFirst pat rep rest

/-- Lookup in an insertion ordered association list (Python dict access). -/
def lookupAssoc {β : Type} (k : Text) : List (Text × β) → Option β
  | [] => none
  | (k₁, v) :: rest => if k₁ = k then some v else lookupAssoc k rest

/-- Assignment in an insertion ordered association list: an existing key keeps
its position, a new key is appended, exactly as a Python dict assignment. -/
def setAssoc {β : Type} (k : Text) (v : β) : List (Text × β) → List (Text × β)
  | [] => [(k, v)]
  | (k₁, v₁) :: rest => if k₁ = k then (k, v) :: rest else (k₁, v₁) :: setAssoc k v rest

/-- Python truthiness of an optional string: present and non empty. -/
def truthyOpt : Option Text → Bool
  | some t => !(t.isEmpty)
  | none => false

/-! ## Stylesheet rule keys and stylesheet merging (epub.py lines 61 to 70 and
287 to 318) -/

/-- Characters excluded by the capture class of the font family regex. -/
def cssStopChar (c : Char) : Bool :=
  c = '"' || c.toNat = 39 || c = ';' || c = '}'

/-- Attempt of the regex font-family:\s*[quote]?([^quote;closebrace]+) at
the head of the text, including the backtracking of the greedy whitespace
class: first the whole whitespace run is consumed, an optional single quote
character taken, and a maximal non empty run outside the stop class captured;
when that attempt fails and the whitespace run is non empty, the engine backs
off one whitespace character, which is not a quote and lies outside the stop
class while everything after it is end of text, a stop character or a quote,
so the capture becomes exactly that one whitespace character. -/
def fontFamilyMatchAt (t : Text) : Option Text :=
  if leadsT (lit "font-family:") t then
    let afterLit := t.drop (lit "font-family:").length
    let ws := afterLit.takeWhile pyIsSpace
    let rest := afterLit.drop ws.length
    let attempt : Option Text :=
      match rest with
      | [] => none
      | c :: r =>
        if c = '"' || c.toNat = 39 then
          let captured := r.takeWhile (fun c => !(cssStopChar c))
          if captured.isEmpty then none else some captured
        else
          let captured := (c :: r).takeWhile (fun c => !(cssStopChar c))
          if captured.isEmpty then none else some captured
    match attempt with
    | some captured => some captured
    | none =>
      match ws.reverse with
      | wsLast :: _ => some [wsLast]
      | [] => none
  else none

/-- re.search for the font family pattern: first matching position wins. -/
def fontFamilySearch : Text → Option Text
  | [] => none
  | c :: rest =>
    match fontFamilyMatchAt (c :: rest) with
    | some r => some r
    | none => fontFamilySearch rest

/-- _get_css_rule_key: unique key for a CSS rule.  The selector is the stripped
text before the first opening brace; a font face rule is keyed by its stripped
font family capture (which may strip to nothing, leaving the bare font face
key) and dropped (no key) only when the font family pattern matches nowhere in
the rule text. -/
def getCssRuleKey (rule : Text) : Option Text :=
  let selector := strip ((splitChar '{' rule).headD [])
  if selector = lit "@font-face" then
    match fontFamilySearch rule with
    | some fam => some (lit "@font-face:" ++ strip fam)
    | none => none
  else if selector = [] then none else some selector

/-- One chunk of the existing stylesheet text: any chunk containing an opening
brace whose key is defined is recorded as key to stripped rule text plus the
closing brace (epub.py lines 301 to 306). -/
def cssRuleStep (rules : List (Text × Text)) (chunk : Text) : List (Text × Text) :=
  if chunk.contains '{' then
    match getCssRuleKey chunk with
    | some k => setAssoc k (strip chunk ++ ['}']) rules
    | none => rules
  else rules

/-- Parse the stored stylesheet content into its rule index. -/
def parseExistingRules (s : Text) : List (Text × Text) :=
  (splitChar '}' s).foldl cssRuleStep []

/-- One chunk of the incoming stylesheet text: a new key is appended, an
existing key is replaced only by a strictly longer rule text (lines 308 to 315). -/
def addNewRule (rules : List (Text × Text)) (chunk : Text) : List (Text × Text) :=
  if chunk.contains '{' then
    match getCssRuleKey chunk with
    | some k =>
      let newRule := strip chunk ++ ['}']
      match lookupAssoc k rules with
      | none => setAssoc k newRule rules
      | some old => if old.length < newRule.length then setAssoc k newRule rules else rules
    | none => rules
  else rules

/-- Join with a newline, as the join of the merged rule texts. -/
def joinNl : List Text → Text
  | [] => []
  | [t] => t
  | t :: u :: rest => t ++ '\n' :: joinNl (u :: rest)

/-- Merge an incoming stylesheet text into the stored one: index the stored
rules, fold the incoming chunks through the longest rule wins policy, and
rebuild the content in insertion order (epub.py lines 296 to 318). -/
def mergeCss (existing incoming : Text) : Text :=
  joinNl (((splitChar '}' incoming).foldl addNewRule (parseExistingRules existing)).map Prod.snd)

/-! ## UTF-8 encoding and decoding (bytes.decode and str.encode) -/

/-- UTF-8 encoding of one character. -/
def utf8EncodeChar (c : Char) : List Nat :=
  let n := c.toNat
  if n < 0x80 then [n]
  else if n < 0x800 then [0xC0 + n / 64, 0x80 + n % 64]
  else if n < 0x10000 then [0xE0 + n / 4096, 0x80 + (n / 64) % 64, 0x80 + n % 64]
  else [0xF0 + n / 0x40000, 0x80 + (n / 4096) % 64, 0x80 + (n / 64) % 64, 0x80 + n % 64]

/-- str.encode("utf-8"). -/
def utf8Encode (t : Text) : List Nat := t.foldr (fun c acc => utf8EncodeChar c ++ acc) []

/-- A UTF-8 continuation byte. -/
def isCont (b : Nat) : Bool := 0x80 ≤ b && b < 0xC0

/-- bytes.decode("utf-8") with strict error handling: rejects stray
continuation bytes, overlong forms, surrogates, values above 0x10FFFF and
truncated sequences, returning none exactly when Python raises
UnicodeDecodeError. -/
def utf8Decode : List Nat → Option Text
  | [] => some []
  | b :: rest =>
    if b < 0x80 then (utf8Decode rest).map (fun t => Char.ofNat b :: t)
    else if b < 0xC2 then none
    else if b < 0xE0 then
      match rest with
      | b₁ :: rest₁ =>
        if isCont b₁ then
          (utf8Decode rest₁).map (fun t => Char.ofNat ((b - 0xC0) * 64 + (b₁ - 0x80)) :: t)
        else none
      | [] => none
    else if b < 0xF0 then
      match rest with
      | b₁ :: b₂ :: rest₂ =>
        if isCont b₁ && isCont b₂ then
          let n := (b - 0xE0) * 4096 + (b₁ - 0x80) * 64 + (b₂ - 0x80)
          if n < 0x800 then none
          else if 0xD800 ≤ n ∧ n < 0xE000 then none
          else (utf8Decode rest₂).map (fun t => Char.ofNat n :: t)
        else none
      | _ => none
    else if b < 0xF5 then
      match rest with
      | b₁ :: b₂ :: b₃ :: rest₃ =>
        if isCont b₁ && isCont b₂ && isCont b₃ then
          let n := (b - 0xF0) * 0x40000 + (b₁ - 0x80) * 4096 + (b₂ - 0x80) * 64 + (b₃ - 0x80)
          if n < 0x10000 then none
          else if 0x10FFFF < n then none
          else (utf8Decode rest₃).map (fun t => Char.ofNat n :: t)
        else none
      | _ => none
    else none

/-- bytes.decode("utf-8", errors="ignore") with an explicit fuel argument;
each step consumes at least one byte, so fuel equal to the length suffices. -/
def utf8DecodeIgnoreAux : Nat → List Nat → Text
  | 0, _ => []
  | _ + 1, [] => []
  | fuel + 1, b :: rest =>
    if b < 0x80 then Char.ofNat b :: utf8DecodeIgnoreAux fuel rest
    else if b < 0xC2 then utf8DecodeIgnoreAux fuel rest
    else if b < 0xE0 then
      match rest with
      | b₁ :: rest₁ =>
        if isCont b₁ then Char.ofNat ((b - 0xC0) * 64 + (b₁ - 0x80)) :: utf8DecodeIgnoreAux fuel rest₁
        else utf8DecodeIgnoreAux fuel rest
      | [] => []
    else if b < 0xF0 then
      match rest with
      | b₁ :: b₂ :: rest₂ =>
        if isCont b₁ && isCont b₂ then
          let n := (b - 0xE0) * 4096 + (b₁ - 0x80) * 64 + (b₂ - 0x80)
          if n < 0x800 || (0xD800 ≤ n && n < 0xE000) then utf8DecodeIgnoreAux fuel rest
          else Char.ofNat n :: utf8DecodeIgnoreAux fuel rest₂
        else utf8DecodeIgnoreAux fuel rest
      | _ => utf8DecodeIgnoreAux fuel rest
    else if b < 0xF5 then
      match rest with
      | b₁ :: b₂ :: b₃ :: rest₃ =>
        if isCont b₁ && isCont b₂ && isCont b₃ then
          let n := (b - 0xF0) * 0x40000 + (b₁ - 0x80) * 4096 + (b₂ - 0x80) * 64 + (b₃ - 0x80)
          if n < 0x10000 || 0x10FFFF < n then utf8DecodeIgnoreAux fuel rest
          else Char.ofNat n :: utf8DecodeIgnoreAux fuel rest₃
        else utf8DecodeIgnoreAux fuel rest
      | _ => utf8DecodeIgnoreAux fuel rest
    else utf8DecodeIgnoreAux fuel rest

/-- bytes.decode("utf-8", errors="ignore"): same recognition as the strict
decoder but undecodable bytes are skipped instead of failing. -/
def utf8DecodeIgnore (l : List Nat) : Text := utf8DecodeIgnoreAux l.length l

/-! ## Fixed layout page repair (_fix_fixed_layout_page, epub.py lines 16 to 58) -/

/-- Attempt of the dimension tail (the literal such as width:, then greedy
whitespace, then a maximal non empty digit run, then the literal px) at the
head of a brace free span. -/
def dimAt (dimLit : Text) (t : Text) : Option Text :=
  if leadsT dimLit t then
    let r := (t.drop dimLit.length).dropWhile pyIsSpace
    let ds := r.takeWhile Char.isDigit
    if ds.isEmpty then none
    else if leadsT (lit "px") (r.drop ds.length) then some ds else none
  else none

/-- Greedy search inside the brace free span: the class before the dimension
literal is greedy, so the rightmost matching position wins. -/
def dimSearchLast (dimLit : Text) : Text → Option Text
  | [] => none
  | c :: rest =>
    match dimSearchLast dimLit rest with
    | some d => some d
    | none => dimAt dimLit (c :: rest)

/-- Attempt of the whole body rule pattern at the head of the text: the
literal body, greedy whitespace, an opening brace, then the dimension tail
somewhere inside the maximal closing brace free span. -/
def bodyDimAt (dimLit : Text) (t : Text) : Option Text :=
  if leadsT (lit "body") t then
    match (t.drop 4).dropWhile pyIsSpace with
    | '{' :: rest => dimSearchLast dimLit (rest.takeWhile (fun c => !(c = '}')))
    | _ => none
  else none

/-- re.search for the body dimension pattern: leftmost starting position. -/
def bodyDimSearch (dimLit : Text) : Text → Option Text
  | [] => none
  | c :: rest =>
    match bodyDimAt dimLit (c :: rest) with
    | some d => some d
    | none => bodyDimSearch dimLit rest

/-- The literal searched for an existing viewport meta tag. -/
def viewportLit : Text := lit "name=\"viewport\""

/-- The literal head opening tag searched for the insertion point. -/
def headLit : Text := lit "<head>"

/-- The inserted viewport meta tag, sized to the recovered dimensions. -/
def viewportTag (w h : Text) : Text :=
  lit "<meta name=\"viewport\" content=\"width=" ++ w ++ lit ", height=" ++ h ++ lit "\"/>"

/-- Attempt of the degenerate inline style pattern
style="width:px;\s*height:px;" at the head of the text, returning the length
of the match. -/
def degenAt (t : Text) : Option Nat :=
  let p₁ := lit "style=\"width:px;"
  if leadsT p₁ t then
    let r := t.drop p₁.length
    let ws := r.takeWhile pyIsSpace
    let p₂ := lit "height:px;\""
    if leadsT p₂ (r.drop ws.length) then some (p₁.length + ws.length + p₂.length) else none
  else none

/-- The replacement for a degenerate inline style, with the recovered pixels. -/
def degenRep (w h : Text) : Text :=
  lit "style=\"width:" ++ w ++ lit "px; height:" ++ h ++ lit "px;\""

/-- re.sub of the degenerate style pattern: all non overlapping occurrences,
left to right.  Fuel equal to the length suffices because every step consumes
at least one character. -/
def degenSubAux (w h : Text) : Nat → Text → Text
  | 0, t => t
  | _ + 1, [] => []
  | fuel + 1, c :: rest =>
    match degenAt (c :: rest) with
    | some k => degenRep w h ++ degenSubAux w h fuel (rest.drop (k - 1))
    | none => c :: degenSubAux w h fuel rest

/-- re.sub of the degenerate style pattern over a whole text. -/
def degenSub (w h : Text) (t : Text) : Text := degenSubAux w h t.length t

/-- _fix_fixed_layout_page: decode the page, recover the pixel dimensions from
the body rule of the companion stylesheet, and if both are present insert a
viewport meta tag after a bare lowercase head opening tag (when no viewport is
already present) and repair degenerate inline styles; on decode failure or a
missing dimension the original bytes are returned. -/
def fixFixedLayoutPage (htmlContent cssContent : List Nat) : List Nat :=
  match utf8Decode htmlContent with
  | none => htmlContent
  | some htmlStr =>
    let wh : Option Text × Option Text :=
      if cssContent.isEmpty then (none, none)
      else
        match utf8Decode cssContent with
        | none => (none, none)
        | some cssStr => (bodyDimSearch (lit "width:") cssStr, bodyDimSearch (lit "height:") cssStr)
    match wh with
    | (some w, some h) =>
      let htmlStr₂ :=
        if containsSub viewportLit htmlStr = false ∧ containsSub headLit htmlStr = true then
          replaceFirst headLit (headLit ++ lit "\n    " ++ viewportTag w h) htmlStr
        else htmlStr
      utf8Encode (degenSub w h htmlStr₂)
    | _ => htmlContent

/-! ## Package document metadata extraction (_extract_opf_metadata, epub.py
lines 73 to 159).  ElementTree parsing of raw bytes is an external library;
its outcome is modelled as an optional element tree, none standing for the
inputs on which ET.fromstring raises ParseError.  The default ElementTree
parser discards comments and processing instructions, so every node carries an
ordinary string tag. -/

/-- An ElementTree element: tag, attributes, text, children. -/
inductive XmlTree where
  | node (tag : Text) (attrs : List (Text × Text)) (text : Option Text) (children : List XmlTree)

/-- The tag of an element. -/
def XmlTree.tag : XmlTree → Text
  | .node t _ _ _ => t

/-- The attributes of an element. -/
def XmlTree.attrs : XmlTree → List (Text × Text)
  | .node _ a _ _ => a

/-- The text of an element (None when absent). -/
def XmlTree.text : XmlTree → Option Text
  | .node _ _ x _ => x

/-- The children of an element. -/
def XmlTree.children : XmlTree → List XmlTree
  | .node _ _ _ cs => cs

/-- Element.get(name): the attribute value or None. -/
def xmlGet (el : XmlTree) (a : Text) : Option Text := lookupAssoc a el.attrs

/-- Element.get(name, default). -/
def xmlGetD (el : XmlTree) (a d : Text) : Text := (xmlGet el a).getD d

mutual

/-- Element.iter(): the element itself followed by all descendants, in
document order. -/
def iterTree : XmlTree → List XmlTree
  | .node t a x cs => .node t a x cs :: iterForest cs

/-- iter over a list of sibling subtrees. -/
def iterForest : List XmlTree → List XmlTree
  | [] => []
  | c :: cs => iterTree c ++ iterForest cs

end

/-- Element.find(tag): the first direct child with the given tag. -/
def findChild (tg : Text) : List XmlTree → Option XmlTree
  | [] => none
  | c :: cs => if c.tag = tg then some c else findChild tg cs

/-- A tag qualified with the OPF namespace, which is what both the prefixed
find with the namespace map and the explicitly qualified fallback find resolve
to in the source. -/
def qualTag (nm : String) : Text := lit ("\x7bhttp://www.idpf.org/2007/opf\x7d" ++ nm)

/-- root.find with the namespace map followed by the fallback find with the
explicitly qualified tag; both look up the same qualified name. -/
def findQual (nm : String) (root : XmlTree) : Option XmlTree :=
  match findChild (qualTag nm) root.children with
  | some el => some el
  | none => findChild (qualTag nm) root.children

/-- The result dictionary of _extract_opf_metadata. -/
structure OpfResult where
  renditionLayout : Option Text
  renditionSpread : Option Text
  renditionOrientation : Option Text
  coverId : Option Text
  coverHref : Option Text
  spineProperties : List (Text × Text)
deriving DecidableEq

/-- The initial, all unset result dictionary. -/
def emptyOpfResult : OpfResult :=
  { renditionLayout := none, renditionSpread := none, renditionOrientation := none,
    coverId := none, coverHref := none, spineProperties := [] }

/-- Whether a tag denotes a meta element, namespaced or not (line 105). -/
def metaTagMatches (tg : Text) : Bool :=
  endsWithT tg (lit "\x7dmeta") || tg = lit "meta"

/-- One element of the metadata walk (lines 104 to 117): record the rendition
property values and the cover id from a name equal to cover meta element. -/
def metaStep (r : OpfResult) (el : XmlTree) : OpfResult :=
  if metaTagMatches el.tag then
    let prop := xmlGetD el (lit "property") []
    let r :=
      if prop = lit "rendition:layout" then { r with renditionLayout := el.text }
      else if prop = lit "rendition:spread" then { r with renditionSpread := el.text }
      else if prop = lit "rendition:orientation" then { r with renditionOrientation := el.text }
      else r
    if xmlGetD el (lit "name") [] = lit "cover" then { r with coverId := xmlGet el (lit "content") }
    else r
  else r

/-- The state of the manifest walk: the id to href lookup, the current cover
id and the current cover href. -/
structure ManifestState where
  idToHref : List (Text × Text)
  coverId : Option Text
  coverHref : Option Text
deriving DecidableEq

/-- The truthy cover id test with the equality of line 133: the current cover
id is present and non empty and the item id equals it. -/
def idMatches (cid itemId : Option Text) : Bool :=
  match cid with
  | some c => (!c.isEmpty) && decide (itemId = some c)
  | none => false

/-- One element of the manifest walk (lines 126 to 140): extend the id to href
lookup, set the cover href on an id match with the current cover id when no
cover href is set yet, then set both cover href and cover id from a
cover-image property when no cover href is set yet. -/
def manifestStep (s : ManifestState) (el : XmlTree) : ManifestState :=
  let itemId := xmlGet el (lit "id")
  let itemHref := xmlGet el (lit "href")
  let idh :=
    match itemId, itemHref with
    | some i, some h => if i ≠ [] ∧ h ≠ [] then setAssoc i h s.idToHref else s.idToHref
    | _, _ => s.idToHref
  let s₁ : ManifestState :=
    { idToHref := idh, coverId := s.coverId,
      coverHref :=
        if idMatches s.coverId itemId = true ∧ truthyOpt s.coverHref = false
        then itemHref else s.coverHref }
  if containsSub (lit "cover-image") (xmlGetD el (lit "properties") []) = true ∧
      truthyOpt s₁.coverHref = false then
    { idToHref := idh, coverId := itemId, coverHref := itemHref }
  else s₁

/-- The manifest walk as a fold over the iterated manifest elements. -/
def manifestFold (s : ManifestState) (els : List XmlTree) : ManifestState :=
  els.foldl manifestStep s

/-- One element of the spine walk (lines 148 to 154): for an itemref with a
truthy idref and properties whose idref resolves through the manifest lookup,
record href to properties. -/
def spineStep (idh : List (Text × Text)) (acc : List (Text × Text)) (el : XmlTree) :
    List (Text × Text) :=
  if endsWithT el.tag (lit "\x7ditemref") = true ∨ el.tag = lit "itemref" then
    match xmlGet el (lit "idref"), xmlGet el (lit "properties") with
    | some idref, some props =>
      if idref ≠ [] ∧ props ≠ [] then
        match lookupAssoc idref idh with
        | some href => setAssoc href props acc
        | none => acc
      else acc
    | _, _ => acc
  else acc

/-- The body of the try block after a successful parse (lines 91 to 155). -/
def extractFromRoot (root : XmlTree) : OpfResult :=
  match findQual "metadata" root with
  | none => emptyOpfResult
  | some md =>
    let r₁ := (iterTree md).foldl metaStep emptyOpfResult
    let ms :=
      match findQual "manifest" root with
      | none => ManifestState.mk [] r₁.coverId r₁.coverHref
      | some man => manifestFold (ManifestState.mk [] r₁.coverId r₁.coverHref) (iterTree man)
    let sp :=
      match findQual "spine" root with
      | none => ([] : List (Text × Text))
      | some spel => (iterTree spel).foldl (spineStep ms.idToHref) []
    { r₁ with coverId := ms.coverId, coverHref := ms.coverHref, spineProperties := sp }

/-- The Python exceptions that the embedding distinguishes. -/
inductive PyExc where
  | parseError
  | zeroDivisionError
  | fileNotFoundError
deriving DecidableEq

/-- The try block of _extract_opf_metadata: ET.fromstring raises ParseError on
malformed input (the none case); afterwards every operation is total. -/
def extractOpfMetadataTry (p : Option XmlTree) : Except PyExc OpfResult :=
  match p with
  | none => Except.error PyExc.parseError
  | some root => Except.ok (extractFromRoot root)

/-- _extract_opf_metadata with its exception handler: ParseError is caught and
the untouched initial result returned; any other exception would propagate. -/
def extractOpfMetadata (p : Option XmlTree) : Except PyExc OpfResult :=
  match extractOpfMetadataTry p with
  | Except.ok r => Except.ok r
  | Except.error PyExc.parseError => Except.ok emptyOpfResult
  | Except.error e => Except.error e

/-- The value _extract_opf_metadata actually returns; the error branch is
unreachable, which the extraction theorem establishes. -/
def extractOpfMetadataRun (p : Option XmlTree) : OpfResult :=
  match extractOpfMetadata p with
  | Except.ok r => r
  | Except.error _ => emptyOpfResult

/-! ## The fragment reassembly driver (_download_epub_in_parts, epub.py lines
235 to 467).  A downloaded and decrypted fragment archive is modelled by its
ordered entry list; the zip name list is the list of entry names, and reading
a name returns the content of the last entry carrying it, as ZipFile.read
does.  The recorded size of an entry is the length of its content. -/

/-- One fragment: the ordered (name, content) entries of its archive. -/
abbrev Fragment := List (Text × List Nat)

/-- zipfile.namelist(). -/
def namelist (f : Fragment) : List Text := f.map Prod.fst

/-- zipfile.read(name): the content of the last entry with that name. -/
def fragRead (f : Fragment) (n : Text) : List Nat :=
  match lookupAssoc n f.reverse with
  | some c => c
  | none => []

/-- The mutable state of one reassembly run: the size registry added_files,
the stylesheet cache, the output item list, the spine, the toc, the opf
extraction flag, the rendition metadata fields, the cover href and the spine
properties mapping. -/
structure RunState where
  addedFiles : List (Text × Nat)
  cssCache : List (Text × List Nat)
  items : List (Text × List Nat)
  spine : List (Text × Option Text)
  toc : List Text
  opfExtracted : Bool
  renditionLayout : Option Text
  renditionSpread : Option Text
  renditionOrientation : Option Text
  coverHref : Option Text
  spineProps : List (Text × Text)
deriving DecidableEq

/-- The initial run state; the rendition fields come from the book metadata
object, whose defaults are None. -/
def initRunState (layout spread orient : Option Text) : RunState :=
  { addedFiles := [], cssCache := [], items := [], spine := [], toc := [],
    opfExtracted := false, renditionLayout := layout, renditionSpread := spread,
    renditionOrientation := orient, coverHref := none, spineProps := [] }

/-- should_add_file (lines 247 to 260): skip directory entries, the mimetype
entry, the reserved container prefix and package or navigation control files;
otherwise a new path is accepted and a present path is accepted only when the
new recorded size is strictly larger than the registered size. -/
def shouldAddFile (added : List (Text × Nat)) (f : Fragment) (n : Text) : Bool :=
  if endsWithT n (lit "/") then false
  else if n = lit "mimetype" || startsWithT n (lit "META-INF/") then false
  else if endsWithT n (lit ".opf") || endsWithT n (lit ".ncx") then false
  else
    match lookupAssoc n added with
    | none => true
    | some sz => sz < (fragRead f n).length

/-- Application of the extracted package metadata to the run state (lines 273
to 284): truthy fields are copied, spine properties are merged with dict
update semantics, and the extraction flag is set. -/
def applyOpf (st : RunState) (m : OpfResult) : RunState :=
  let st := if truthyOpt m.renditionLayout then { st with renditionLayout := m.renditionLayout }
            else st
  let st := if truthyOpt m.renditionSpread then { st with renditionSpread := m.renditionSpread }
            else st
  let st := if truthyOpt m.renditionOrientation then
              { st with renditionOrientation := m.renditionOrientation }
            else st
  let st := if truthyOpt m.coverHref then { st with coverHref := m.coverHref } else st
  let st := if m.spineProperties ≠ [] then
              { st with spineProps := m.spineProperties.foldl (fun a kv => setAssoc kv.1 kv.2 a)
                                        st.spineProps }
            else st
  { st with opfExtracted := true }

/-- The scan for the first package document of a fragment (lines 268 to 285):
the first name ending in .opf is parsed and applied, then the scan stops. -/
def opfScan (px : List Nat → Option XmlTree) (f : Fragment) (st : RunState) :
    List Text → RunState
  | [] => st
  | n :: rest =>
    if endsWithT n (lit ".opf") then applyOpf st (extractOpfMetadataRun (px (fragRead f n)))
    else opfScan px f st rest

/-- The stylesheet collection step for one name (lines 288 to 318): a non
empty stylesheet entry is stored verbatim when its path is new and otherwise
merged rule by rule into the stored content. -/
def cssStep (f : Fragment) (st : RunState) (n : Text) : RunState :=
  if endsWithT n (lit ".css") then
    let content := fragRead f n
    if content.isEmpty then st
    else
      match lookupAssoc n st.cssCache with
      | none => { st with cssCache := setAssoc n content st.cssCache }
      | some existing =>
        let merged := utf8Encode (mergeCss (utf8DecodeIgnore existing) (utf8DecodeIgnore content))
        { st with cssCache := setAssoc n merged st.cssCache }
  else st

/-- The recognised navigation file names (line 354). -/
def navNames : List Text := [lit "nav.xhtml", lit "nav.html", lit "toc.xhtml", lit "toc.html"]

/-- Whether a page file name appears in the externally supplied toc index: the
part of some key before the first hash sign equals the file basename (lines
339 to 344). -/
def tocHit (filesInToc : List (Text × Text)) (filename : Text) : Bool :=
  filesInToc.any (fun kv => decide ((kv.1.takeWhile (fun c => !(c = '#'))) = filename))

/-- The spine property matched to a stored path by suffix in either direction
(lines 358 to 362): first matching entry wins. -/
def pickSpineProps : List (Text × Text) → Text → Option Text
  | [], _ => none
  | (href, pv) :: rest, fp =>
    if endsWithT fp href || endsWithT href (basenameT fp) then some pv
    else pickSpineProps rest fp

/-- The fixed layout repair applied to an accepted page body (lines 330 to
336): only under a pre-paginated layout, using the cached companion
stylesheet at the path with the stylesheet extension, when that cache entry is
truthy. -/
def repairedContent (st : RunState) (n : Text) (content : List Nat) : List Nat :=
  if st.renditionLayout = some (lit "pre-paginated") then
    let cssPath := replaceAllT (replaceAllT n (lit ".xhtml") (lit ".css")) (lit ".html") (lit ".css")
    match lookupAssoc cssPath st.cssCache with
    | some cssContent => if cssContent.isEmpty then content else fixFixedLayoutPage content cssContent
    | none => content
  else content

/-- The main merge step for one name of a fragment (lines 320 to 375):
stylesheets are deferred, rejected names are skipped, an accepted page
document is repaired, added to the items, appended to the spine unless it is a
navigation page under a pre-paginated layout, appended to the toc when the toc
index lists it, and every accepted file finally records its raw size in the
registry. -/
def mainStep (filesInToc : List (Text × Text)) (f : Fragment) (st : RunState) (n : Text) :
    RunState :=
  if endsWithT n (lit ".css") then st
  else if shouldAddFile st.addedFiles f n = false then st
  else
    let content := fragRead f n
    let fileSize := content.length
    if endsWithT n (lit "html") then
      let content₂ := repairedContent st n content
      let isNav := navNames.any (fun x => containsSub x (toLowerT n))
      { st with
        items := st.items ++ [(n, content₂)],
        spine :=
          if isNav = true ∧ st.renditionLayout = some (lit "pre-paginated") then st.spine
          else st.spine ++ [(n, pickSpineProps st.spineProps n)],
        toc := if tocHit filesInToc (basenameT n) then st.toc ++ [n] else st.toc,
        addedFiles := setAssoc n fileSize st.addedFiles }
    else
      { st with
        items := st.items ++ [(n, content)],
        addedFiles := setAssoc n fileSize st.addedFiles }

/-- Processing of one fragment (lines 264 to 375): package document scan when
none was extracted yet, then the stylesheet collection pass, then the main
merge pass, each over the name list in order. -/
def processFragment (px : List Nat → Option XmlTree) (filesInToc : List (Text × Text))
    (st : RunState) (f : Fragment) : RunState :=
  let st := if st.opfExtracted then st else opfScan px f st (namelist f)
  let st := (namelist f).foldl (cssStep f) st
  (namelist f).foldl (mainStep filesInToc f) st

/-- The synthesised package, as far as the verified claims describe it: the
manifest items, the spine with optional per item properties, the toc and the
rendition metadata triple.  Cover resolution (lines 389 to 449) only adds
cover metadata and is outside the verified claims. -/
structure EpubPackage where
  items : List (Text × List Nat)
  spine : List (Text × Option Text)
  toc : List Text
  renditionLayout : Option Text
  renditionSpread : Option Text
  renditionOrientation : Option Text
deriving DecidableEq

/-- The degenerate empty package. -/
def emptyEpubPackage : EpubPackage :=
  { items := [], spine := [], toc := [], renditionLayout := none, renditionSpread := none,
    renditionOrientation := none }

/-- Python division, which raises ZeroDivisionError on a zero divisor. -/
def pyDiv (a b : Nat) : Except PyExc Nat :=
  if b = 0 then Except.error PyExc.zeroDivisionError else Except.ok (a / b)

/-- _download_epub_in_parts (lines 235 to 467): the per fragment progress
fraction is computed up front by a Python division, every fragment is folded
through processFragment, the temporary working copy is removed (it exists only
when at least one fragment was written), the merged stylesheets are added as
items, and the package is assembled. -/
def downloadEpubInParts (px : List Nat → Option XmlTree) (filesInToc : List (Text × Text))
    (layout spread orient : Option Text) (frags : List Fragment) : Except PyExc EpubPackage := do
  let fileCount := frags.length
  let _progress ← pyDiv 1 fileCount
  let st := frags.foldl (processFragment px filesInToc) (initRunState layout spread orient)
  if frags.isEmpty then throw PyExc.fileNotFoundError
  let st := { st with items := st.items ++ st.cssCache }
  pure { items := st.items, spine := st.spine, toc := st.toc,
         renditionLayout := st.renditionLayout, renditionSpread := st.renditionSpread,
         renditionOrientation := st.renditionOrientation }

/-! ## General lemmas about the embedding -/

instance {ε α : Type} [DecidableEq ε] [DecidableEq α] : DecidableEq (Except ε α)
  | Except.ok x, Except.ok y =>
    if h : x = y then Decidable.isTrue (congrArg Except.ok h)
    else Decidable.isFalse (fun hh => h (Except.ok.inj hh))
  | Except.error x, Except.error y =>
    if h : x = y then Decidable.isTrue (congrArg Except.error h)
    else Decidable.isFalse (fun hh => h (Except.error.inj hh))
  | Except.ok _, Except.error _ => Decidable.isFalse (fun hh => Except.noConfusion hh)
  | Except.error _, Except.ok _ => Decidable.isFalse (fun hh => Except.noConfusion hh)

theorem lookupAssoc_setAssoc_self {β : Type} (k : Text) (v : β) (l : List (Text × β)) :
    lookupAssoc k (setAssoc k v l) = some v := by
  induction l with
  | nil => simp [setAssoc, lookupAssoc]
  | cons p rest ih =>
    obtain ⟨k₁, v₁⟩ := p
    by_cases h : k₁ = k
    · simp [setAssoc, h, lookupAssoc]
    · simp [setAssoc, h, lookupAssoc, ih]

theorem lookupAssoc_setAssoc_ne {β : Type} (k k₂ : Text) (v : β) (l : List (Text × β))
    (h : k₂ ≠ k) : lookupAssoc k₂ (setAssoc k v l) = lookupAssoc k₂ l := by
  induction l with
  | nil => simp [setAssoc, lookupAssoc, Ne.symm h]
  | cons p rest ih =>
    obtain ⟨k₁, v₁⟩ := p
    by_cases h₁ : k₁ = k
    · subst h₁
      simp [setAssoc, lookupAssoc, Ne.symm h]
    · simp only [setAssoc, if_neg h₁, lookupAssoc]
      by_cases h₂ : k₁ = k₂ <;> simp [h₂, ih]

theorem lookupAssoc_append_last {β : Type} (n : Text) (c : β) (l : List (Text × β)) :
    lookupAssoc n ((l ++ [(n, c)]).reverse) = some c := by
  rw [List.reverse_append]
  simp [lookupAssoc]

/-! ## Claim theorems -/

/-- Claim C1, counterexample: with zero fragments the engine does not yield
the empty package (empty manifest, empty spine, unset rendition metadata). -/
theorem zeroFragments_no_empty_package :
    downloadEpubInParts (fun _ => none) [] none none none [] ≠ Except.ok emptyEpubPackage := by
  decide

/-- Claim C1, amended: a reassembly run supplied with zero fragments raises a
division by zero error while computing the per fragment progress fraction,
instead of yielding an empty package. -/
theorem zeroFragments_raises :
    downloadEpubInParts (fun _ => none) [] none none none [] =
      Except.error PyExc.zeroDivisionError := by
  decide

/-- Claim C8: package metadata extraction never raises for any parse outcome,
and malformed input (a failed parse) yields a result with every metadata field
unset: no rendition flags, no cover id, no cover href, empty spine
properties. -/
theorem opfExtraction_failSoft :
    (∀ p : Option XmlTree, ∃ r, extractOpfMetadata p = Except.ok r) ∧
    extractOpfMetadata none =
      Except.ok { renditionLayout := none, renditionSpread := none,
                  renditionOrientation := none, coverId := none, coverHref := none,
                  spineProperties := [] } := by
  constructor
  · intro p
    cases p with
    | none => exact ⟨emptyOpfResult, rfl⟩
    | some root => exact ⟨extractFromRoot root, rfl⟩
  · rfl

/-- Claim C9: fixed layout page repair returns the page bytes unchanged
whenever the page fails UTF-8 decoding, or the companion stylesheet fails
UTF-8 decoding, or the body rule of the decoded stylesheet lacks a pixel
width or a pixel height declaration. -/
theorem fixPage_failSoft (html css : List Nat)
    (h : utf8Decode html = none ∨ utf8Decode css = none ∨
         ∃ cs, utf8Decode css = some cs ∧
           (bodyDimSearch (lit "width:") cs = none ∨ bodyDimSearch (lit "height:") cs = none)) :
    fixFixedLayoutPage html css = html := by
  unfold fixFixedLayoutPage
  cases hd : utf8Decode html with
  | none => rfl
  | some s =>
    cases he : css.isEmpty with
    | true => simp [he]
    | false =>
      rcases h with h | h | ⟨cs, hcs, hn⟩
      · rw [hd] at h
        cases h
      · simp only [he, Bool.false_eq_true, ite_false]
        rw [h]
      · simp only [he, Bool.false_eq_true, ite_false, hcs]
        rcases hn with hn | hn
        · rw [hn]
        · rw [hn]
          cases bodyDimSearch (lit "width:") cs <;> rfl

/-- Witness for claim C9 at a concrete input: an undecodable stylesheet byte
leaves the page untouched. -/
theorem fixPage_failSoft_witness :
    utf8Decode [255] = none ∧
    fixFixedLayoutPage (utf8Encode (lit "<p/>")) [255] = utf8Encode (lit "<p/>") :=
  ⟨by decide, fixPage_failSoft (utf8Encode (lit "<p/>")) [255] (Or.inr (Or.inl (by decide)))⟩

/-- Claim C10: when both pixel dimensions are recovered but the decoded page
either already contains the viewport marker or does not contain the exact
lowercase head opening tag (for instance a head tag with attributes or in a
different case), no viewport is inserted: the result is exactly the re-encoded
page with only the degenerate inline styles substituted. -/
theorem viewportGuard (html css : List Nat) (s w h : Text)
    (hdec : utf8Decode html = some s)
    (hne : css.isEmpty = false)
    (hcs : ∃ cs, utf8Decode css = some cs ∧
       bodyDimSearch (lit "width:") cs = some w ∧ bodyDimSearch (lit "height:") cs = some h)
    (hno : ¬ (containsSub viewportLit s = false ∧ containsSub headLit s = true)) :
    fixFixedLayoutPage html css = utf8Encode (degenSub w h s) := by
  obtain ⟨cs, h₁, h₂, h₃⟩ := hcs
  unfold fixFixedLayoutPage
  rw [hdec]
  simp only [hne, Bool.false_eq_true, ite_false, h₁, h₂, h₃, if_neg hno]

/-- Witness for claim C10 at a concrete input: an uppercase head tag receives
no viewport, only the degenerate style substitution. -/
theorem viewportGuard_witness :
    utf8Decode (utf8Encode (lit "<HEAD><p style=\"width:px; height:px;\"/></HEAD>")) =
      some (lit "<HEAD><p style=\"width:px; height:px;\"/></HEAD>") ∧
    fixFixedLayoutPage (utf8Encode (lit "<HEAD><p style=\"width:px; height:px;\"/></HEAD>"))
        (utf8Encode (lit "body\x7bwidth:600px;height:800px\x7d")) =
      utf8Encode (degenSub (lit "600") (lit "800")
        (lit "<HEAD><p style=\"width:px; height:px;\"/></HEAD>")) :=
  ⟨by decide,
   viewportGuard _ _ _ _ _ (by decide) (by decide)
     ⟨lit "body\x7bwidth:600px;height:800px\x7d", by decide, by decide, by decide⟩ (by decide)⟩

/-! ## Stylesheet merging lemmas -/

theorem contains_eq_false_of_not_mem {a : Char} {l : List Char} (h : a ∉ l) :
    l.contains a = false := by
  induction l with
  | nil => rfl
  | cons c rest ih =>
    simp only [List.contains_cons, Bool.or_eq_false_iff]
    constructor
    · simp only [beq_eq_false_iff_ne, ne_eq]
      intro hh
      exact h (hh ▸ List.mem_cons_self c rest)
    · exact ih (fun hm => h (List.mem_cons_of_mem c hm))

theorem contains_eq_true_of_mem {a : Char} {l : List Char} (h : a ∈ l) :
    l.contains a = true := by
  induction l with
  | nil => cases h
  | cons c rest ih =>
    simp only [List.contains_cons, Bool.or_eq_true, beq_iff_eq]
    rcases List.mem_cons.mp h with h | h
    · exact Or.inl h
    · exact Or.inr (ih h)

theorem splitChar_close (r : Text) (h : '}' ∉ r) : splitChar '}' (r ++ ['}']) = [r, []] := by
  induction r with
  | nil => rfl
  | cons c rest ih =>
    have hc : ¬ c = '}' := fun hh => h (hh ▸ List.mem_cons_self c rest)
    have hr : '}' ∉ rest := fun hm => h (List.mem_cons_of_mem c hm)
    simp only [List.cons_append, splitChar, if_neg hc]
    rw [show splitChar '}' (rest.append ['}']) = [rest, []] from ih hr]

theorem cssRuleStep_nilChunk (rules : List (Text × Text)) : cssRuleStep rules [] = rules := rfl

theorem addNewRule_nilChunk (rules : List (Text × Text)) : addNewRule rules [] = rules := rfl

theorem parseExistingRules_single (r k : Text) (hm : '{' ∈ r) (hn : '}' ∉ r)
    (hk : getCssRuleKey r = some k) :
    parseExistingRules (r ++ ['}']) = [(k, strip r ++ ['}'])] := by
  rw [parseExistingRules, splitChar_close r hn]
  simp only [List.foldl_cons, List.foldl_nil, cssRuleStep_nilChunk]
  rw [cssRuleStep, if_pos (contains_eq_true_of_mem hm), hk]
  rfl

theorem addNewRule_same_key (k R b : Text) (hbm : '{' ∈ b) (hkb : getCssRuleKey b = some k) :
    addNewRule [(k, R)] b =
      if R.length < (strip b ++ ['}']).length then [(k, strip b ++ ['}'])] else [(k, R)] := by
  rw [addNewRule, if_pos (contains_eq_true_of_mem hbm), hkb]
  have hl : lookupAssoc k [(k, R)] = some R := by
    simp [lookupAssoc]
  simp only [hl]
  by_cases hc : R.length < (strip b ++ ['}']).length
  · rw [if_pos hc, if_pos hc]
    simp [setAssoc]
  · rw [if_neg hc, if_neg hc]

theorem addNewRule_new_key (k₁ R k₂ b : Text) (hbm : '{' ∈ b)
    (hkb : getCssRuleKey b = some k₂) (hne : k₁ ≠ k₂) :
    addNewRule [(k₁, R)] b = [(k₁, R), (k₂, strip b ++ ['}'])] := by
  rw [addNewRule, if_pos (contains_eq_true_of_mem hbm), hkb]
  have hl : lookupAssoc k₂ [(k₁, R)] = none := by
    simp [lookupAssoc, hne]
  simp only [hl]
  simp [setAssoc, hne]

theorem mergeCss_base (base : List (Text × Text)) (r : Text) (hn : '}' ∉ r) :
    (splitChar '}' (r ++ ['}'])).foldl addNewRule base = addNewRule base r := by
  rw [splitChar_close r hn]
  simp only [List.foldl_cons, List.foldl_nil]
  rfl

/-- Claim C3, counterexample: two stylesheet fragments with the same single
rule key but equal length rule texts give a different merged stylesheet cache
in the two arrival orders, so merging is not commutative. -/
theorem stylesheetMerge_order_dependent :
    (processFragment (fun _ => none) []
        (processFragment (fun _ => none) [] (initRunState none none none)
          [(lit "s.css", utf8Encode (lit "a\x7bxx\x7d"))])
        [(lit "s.css", utf8Encode (lit "a\x7byy\x7d"))]).cssCache ≠
    (processFragment (fun _ => none) []
        (processFragment (fun _ => none) [] (initRunState none none none)
          [(lit "s.css", utf8Encode (lit "a\x7byy\x7d"))])
        [(lit "s.css", utf8Encode (lit "a\x7bxx\x7d"))]).cssCache := by
  decide

/-- Claim C3, amended: for two candidate rule texts of different lengths under
the same rule key, the merged stylesheet contains exactly the longer one, and
that merge is order independent; with equal lengths the first seen is kept, so
the order of fragment arrival can change the merged content. -/
theorem longestRuleWins (r₁ r₂ k : Text)
    (h₁m : '{' ∈ r₁) (h₂m : '{' ∈ r₂) (h₁n : '}' ∉ r₁) (h₂n : '}' ∉ r₂)
    (hk₁ : getCssRuleKey r₁ = some k) (hk₂ : getCssRuleKey r₂ = some k)
    (hlen : (strip r₁).length ≠ (strip r₂).length) :
    mergeCss (r₁ ++ ['}']) (r₂ ++ ['}']) = mergeCss (r₂ ++ ['}']) (r₁ ++ ['}']) ∧
    mergeCss (r₁ ++ ['}']) (r₂ ++ ['}']) =
      (if (strip r₁).length < (strip r₂).length then strip r₂ else strip r₁) ++ ['}'] := by
  have compute : ∀ a b : Text, '{' ∈ a → '{' ∈ b → '}' ∉ a → '}' ∉ b →
      getCssRuleKey a = some k → getCssRuleKey b = some k →
      mergeCss (a ++ ['}']) (b ++ ['}']) =
        (if (strip a).length < (strip b).length then strip b else strip a) ++ ['}'] := by
    intro a b ham hbm han hbn hka hkb
    rw [mergeCss, parseExistingRules_single a k ham han hka, mergeCss_base _ b hbn,
        addNewRule_same_key k (strip a ++ ['}']) b hbm hkb]
    by_cases hc : (strip a ++ ['}']).length < (strip b ++ ['}']).length
    · have hc₂ : (strip a).length < (strip b).length := by
        simpa using hc
      rw [if_pos hc, if_pos hc₂]
      simp [joinNl]
    · have hc₂ : ¬ (strip a).length < (strip b).length := by
        simpa using hc
      rw [if_neg hc, if_neg hc₂]
      simp [joinNl]
  constructor
  · rw [compute r₁ r₂ h₁m h₂m h₁n h₂n hk₁ hk₂, compute r₂ r₁ h₂m h₁m h₂n h₁n hk₂ hk₁]
    rcases Nat.lt_or_ge (strip r₁).length (strip r₂).length with h | h
    · rw [if_pos h, if_neg (Nat.not_lt_of_ge (Nat.le_of_lt h))]
    · have h₂ : (strip r₂).length < (strip r₁).length := Nat.lt_of_le_of_ne h (Ne.symm hlen)
      rw [if_neg (Nat.not_lt_of_ge h), if_pos h₂]
  · exact compute r₁ r₂ h₁m h₂m h₁n h₂n hk₁ hk₂

/-- Witness for claim C3 at a concrete input: the longer of two competing rule
texts wins in both arrival orders. -/
theorem longestRuleWins_witness :
    (strip (lit "a\x7bx")).length ≠ (strip (lit "a\x7bxy")).length ∧
    mergeCss (lit "a\x7bx" ++ ['}']) (lit "a\x7bxy" ++ ['}']) =
      mergeCss (lit "a\x7bxy" ++ ['}']) (lit "a\x7bx" ++ ['}']) ∧
    mergeCss (lit "a\x7bx" ++ ['}']) (lit "a\x7bxy" ++ ['}']) =
      (if (strip (lit "a\x7bx")).length < (strip (lit "a\x7bxy")).length
       then strip (lit "a\x7bxy") else strip (lit "a\x7bx")) ++ ['}'] :=
  ⟨by decide,
   (longestRuleWins (lit "a\x7bx") (lit "a\x7bxy") (lit "a") (by decide) (by decide) (by decide)
     (by decide) (by decide) (by decide) (by decide)).1,
   (longestRuleWins (lit "a\x7bx") (lit "a\x7bxy") (lit "a") (by decide) (by decide) (by decide)
     (by decide) (by decide) (by decide) (by decide)).2⟩

/-- Claim C7: two font face rules with the same selector text but distinct
declared font family values receive distinct keys and both survive merging as
separate entries, while a font face rule with no font family declaration has
no key and contributes nothing to a merge. -/
theorem fontFaceKeys (r₁ r₂ r₃ f₁ f₂ : Text)
    (hs₁ : strip ((splitChar '{' r₁).headD []) = lit "@font-face")
    (hs₂ : strip ((splitChar '{' r₂).headD []) = lit "@font-face")
    (hs₃ : strip ((splitChar '{' r₃).headD []) = lit "@font-face")
    (hf₁ : fontFamilySearch r₁ = some f₁) (hf₂ : fontFamilySearch r₂ = some f₂)
    (hf₃ : fontFamilySearch r₃ = none)
    (hne : strip f₁ ≠ strip f₂)
    (h₁m : '{' ∈ r₁) (h₂m : '{' ∈ r₂) (h₁n : '}' ∉ r₁) (h₂n : '}' ∉ r₂) (h₃n : '}' ∉ r₃) :
    getCssRuleKey r₁ = some (lit "@font-face:" ++ strip f₁) ∧
    getCssRuleKey r₂ = some (lit "@font-face:" ++ strip f₂) ∧
    getCssRuleKey r₁ ≠ getCssRuleKey r₂ ∧
    getCssRuleKey r₃ = none ∧
    mergeCss (r₁ ++ ['}']) (r₂ ++ ['}']) = (strip r₁ ++ ['}']) ++ '\n' :: (strip r₂ ++ ['}']) ∧
    (∀ rules, (splitChar '}' (r₃ ++ ['}'])).foldl addNewRule rules = rules) := by
  rw [List.headD_eq_head?] at hs₁ hs₂ hs₃
  have hk₁ : getCssRuleKey r₁ = some (lit "@font-face:" ++ strip f₁) := by
    simp [getCssRuleKey, hs₁, hf₁]
  have hk₂ : getCssRuleKey r₂ = some (lit "@font-face:" ++ strip f₂) := by
    simp [getCssRuleKey, hs₂, hf₂]
  have hk₃ : getCssRuleKey r₃ = none := by
    simp [getCssRuleKey, hs₃, hf₃]
  have hkne : lit "@font-face:" ++ strip f₁ ≠ lit "@font-face:" ++ strip f₂ := by
    intro hh
    exact hne (List.append_cancel_left hh)
  refine ⟨hk₁, hk₂, ?_, hk₃, ?_, ?_⟩
  · rw [hk₁, hk₂]
    intro hh
    exact hkne (Option.some.inj hh)
  · rw [mergeCss,
        parseExistingRules_single r₁ (lit "@font-face:" ++ strip f₁) h₁m h₁n hk₁,
        mergeCss_base _ r₂ h₂n,
        addNewRule_new_key (lit "@font-face:" ++ strip f₁) (strip r₁ ++ ['}'])
          (lit "@font-face:" ++ strip f₂) r₂ h₂m hk₂ hkne]
    simp [joinNl]
  · intro rules
    rw [mergeCss_base _ r₃ h₃n, addNewRule]
    by_cases hc : r₃.contains '{' = true
    · rw [if_pos hc, hk₃]
    · rw [if_neg hc]

/-- Witness for claim C7 at concrete inputs: two font faces with families AAA
and BBB both survive, a family free font face is dropped. -/
theorem fontFaceKeys_witness :
    getCssRuleKey (lit "@font-face\x7bsrc:u(c)") = none ∧
    mergeCss (lit "@font-face\x7bfont-family:AAA" ++ ['}'])
        (lit "@font-face\x7bfont-family:BBB" ++ ['}']) =
      (strip (lit "@font-face\x7bfont-family:AAA") ++ ['}']) ++
        '\n' :: (strip (lit "@font-face\x7bfont-family:BBB") ++ ['}']) := by
  have h := fontFaceKeys (lit "@font-face\x7bfont-family:AAA")
    (lit "@font-face\x7bfont-family:BBB") (lit "@font-face\x7bsrc:u(c)")
    (lit "AAA") (lit "BBB") (by decide) (by decide) (by decide) (by decide) (by decide)
    (by decide) (by decide) (by decide) (by decide) (by decide) (by decide) (by decide)
  exact ⟨h.2.2.2.1, h.2.2.2.2.1⟩

/-! ## Merge engine lemmas -/

/-- The paths the merge engine excludes or defers: directory markers, the
mimetype entry, the reserved container prefix, package and navigation control
files, and (deferred to the stylesheet merger) stylesheet paths. -/
def mergeExcludedB (n : Text) : Bool :=
  endsWithT n (lit "/") || (n = lit "mimetype" || startsWithT n (lit "META-INF/")) ||
  (endsWithT n (lit ".opf") || endsWithT n (lit ".ncx")) || endsWithT n (lit ".css")

theorem notExcl_dir {n : Text} (hex : mergeExcludedB n = false) :
    endsWithT n (lit "/") = false := by
  cases hv : endsWithT n (lit "/")
  · rfl
  · rw [mergeExcludedB, hv] at hex
    simp at hex

theorem notExcl_reserved {n : Text} (hex : mergeExcludedB n = false) :
    (n = lit "mimetype" || startsWithT n (lit "META-INF/")) = false := by
  cases hv : (n = lit "mimetype" || startsWithT n (lit "META-INF/"))
  · rfl
  · rw [mergeExcludedB, hv] at hex
    simp at hex

theorem notExcl_control {n : Text} (hex : mergeExcludedB n = false) :
    (endsWithT n (lit ".opf") || endsWithT n (lit ".ncx")) = false := by
  cases hv : (endsWithT n (lit ".opf") || endsWithT n (lit ".ncx"))
  · rfl
  · rw [mergeExcludedB, hv] at hex
    simp at hex

theorem notExcl_css {n : Text} (hex : mergeExcludedB n = false) :
    endsWithT n (lit ".css") = false := by
  cases hv : endsWithT n (lit ".css")
  · rfl
  · rw [mergeExcludedB, hv] at hex
    simp at hex

/-- Evaluation of should_add_file on a non excluded path: acceptance depends
only on the registry entry and the recorded size. -/
theorem shouldAddFile_eval (added : List (Text × Nat)) (f : Fragment) (n : Text)
    (hex : mergeExcludedB n = false) :
    shouldAddFile added f n =
      (match lookupAssoc n added with
       | none => true
       | some sz => decide (sz < (fragRead f n).length)) := by
  rw [shouldAddFile, if_neg (by simp [notExcl_dir hex]),
      if_neg (by simp [notExcl_reserved hex]), if_neg (by simp [notExcl_control hex])]

/-- A rejected or deferred name leaves the run state untouched. -/
theorem mainStep_skip (filesInToc : List (Text × Text)) (f : Fragment) (st : RunState) (n : Text)
    (h : endsWithT n (lit ".css") = true ∨ shouldAddFile st.addedFiles f n = false) :
    mainStep filesInToc f st n = st := by
  rcases h with h | h
  · rw [mainStep, if_pos h]
  · rw [mainStep]
    cases hcss : endsWithT n (lit ".css")
    · rw [if_neg (by simp), if_pos h]
    · rfl

/-- Evaluation of the main merge step on an accepted name. -/
theorem mainStep_accept (filesInToc : List (Text × Text)) (f : Fragment) (st : RunState) (n : Text)
    (hcss : endsWithT n (lit ".css") = false)
    (hsa : shouldAddFile st.addedFiles f n = true) :
    mainStep filesInToc f st n =
      if endsWithT n (lit "html") = true then
        { st with
          items := st.items ++ [(n, repairedContent st n (fragRead f n))],
          spine :=
            if navNames.any (fun x => containsSub x (toLowerT n)) = true ∧
               st.renditionLayout = some (lit "pre-paginated") then st.spine
            else st.spine ++ [(n, pickSpineProps st.spineProps n)],
          toc := if tocHit filesInToc (basenameT n) then st.toc ++ [n] else st.toc,
          addedFiles := setAssoc n (fragRead f n).length st.addedFiles }
      else
        { st with
          items := st.items ++ [(n, fragRead f n)],
          addedFiles := setAssoc n (fragRead f n).length st.addedFiles } := by
  rw [mainStep, if_neg (by simp [hcss]), if_neg (by simp [hsa])]

/-- The body the registry keeps for a path: the content of the last item added
under that file name. -/
def keptBody (st : RunState) (n : Text) : Option (List Nat) :=
  lookupAssoc n st.items.reverse

/-- The body actually stored for an accepted entry: a page document passes
through fixed layout repair, any other file is stored as supplied. -/
def storedVersion (st : RunState) (n : Text) (b : List Nat) : List Nat :=
  if endsWithT n (lit "html") = true then repairedContent st n b else b

/-- Claim C2: for a non excluded path of a fragment, a path absent from the
registry is inserted with its body; a present path is replaced exactly when
the new body is strictly longer than the registered size, so a non empty body
beats an empty registered one in either arrival order and an equal length
candidate leaves the registry and the whole state untouched (first seen
wins). -/
theorem mergeDecisionRule (filesInToc : List (Text × Text)) (f : Fragment) (st : RunState)
    (n : Text) (hex : mergeExcludedB n = false) :
    (lookupAssoc n st.addedFiles = none →
       lookupAssoc n (mainStep filesInToc f st n).addedFiles = some (fragRead f n).length ∧
       keptBody (mainStep filesInToc f st n) n = some (storedVersion st n (fragRead f n))) ∧
    (∀ sz, lookupAssoc n st.addedFiles = some sz →
       (sz < (fragRead f n).length →
          lookupAssoc n (mainStep filesInToc f st n).addedFiles = some (fragRead f n).length ∧
          keptBody (mainStep filesInToc f st n) n = some (storedVersion st n (fragRead f n))) ∧
       (¬ sz < (fragRead f n).length → mainStep filesInToc f st n = st)) := by
  have hcss := notExcl_css hex
  have accept : shouldAddFile st.addedFiles f n = true →
      lookupAssoc n (mainStep filesInToc f st n).addedFiles = some (fragRead f n).length ∧
      keptBody (mainStep filesInToc f st n) n = some (storedVersion st n (fragRead f n)) := by
    intro hsa
    rw [mainStep_accept filesInToc f st n hcss hsa]
    cases hh : endsWithT n (lit "html")
    · simp only [Bool.false_eq_true, if_false]
      exact ⟨lookupAssoc_setAssoc_self n _ st.addedFiles,
        by rw [keptBody, storedVersion, if_neg (by simp [hh])]
           exact lookupAssoc_append_last n _ st.items⟩
    · simp only [if_true]
      exact ⟨lookupAssoc_setAssoc_self n _ st.addedFiles,
        by rw [keptBody, storedVersion, if_pos hh]
           exact lookupAssoc_append_last n _ st.items⟩
  constructor
  · intro hnone
    exact accept (by rw [shouldAddFile_eval st.addedFiles f n hex, hnone])
  · intro sz hsz
    constructor
    · intro hlt
      exact accept (by rw [shouldAddFile_eval st.addedFiles f n hex, hsz]
                       simpa using hlt)
    · intro hnlt
      refine mainStep_skip filesInToc f st n (Or.inr ?_)
      rw [shouldAddFile_eval st.addedFiles f n hex, hsz]
      simpa using hnlt

/-- Witness for claim C2 at concrete inputs: a registered two byte text file
is replaced by a three byte version. -/
theorem mergeDecisionRule_witness :
    mergeExcludedB (lit "a.txt") = false ∧
    ((lookupAssoc (lit "a.txt")
        { initRunState none none none with
          addedFiles := [(lit "a.txt", 2)], items := [(lit "a.txt", [9, 9])] }.addedFiles =
          none →
        lookupAssoc (lit "a.txt")
          (mainStep [] [(lit "a.txt", [5, 6, 7])]
            { initRunState none none none with
              addedFiles := [(lit "a.txt", 2)], items := [(lit "a.txt", [9, 9])] }
            (lit "a.txt")).addedFiles =
          some (fragRead [(lit "a.txt", [5, 6, 7])] (lit "a.txt")).length ∧
        keptBody
          (mainStep [] [(lit "a.txt", [5, 6, 7])]
            { initRunState none none none with
              addedFiles := [(lit "a.txt", 2)], items := [(lit "a.txt", [9, 9])] }
            (lit "a.txt")) (lit "a.txt") =
          some (storedVersion
            { initRunState none none none with
              addedFiles := [(lit "a.txt", 2)], items := [(lit "a.txt", [9, 9])] }
            (lit "a.txt") (fragRead [(lit "a.txt", [5, 6, 7])] (lit "a.txt")))) ∧
     (∀ sz,
        lookupAssoc (lit "a.txt")
          { initRunState none none none with
            addedFiles := [(lit "a.txt", 2)], items := [(lit "a.txt", [9, 9])] }.addedFiles =
            some sz →
        (sz < (fragRead [(lit "a.txt", [5, 6, 7])] (lit "a.txt")).length →
           lookupAssoc (lit "a.txt")
             (mainStep [] [(lit "a.txt", [5, 6, 7])]
               { initRunState none none none with
                 addedFiles := [(lit "a.txt", 2)], items := [(lit "a.txt", [9, 9])] }
               (lit "a.txt")).addedFiles =
             some (fragRead [(lit "a.txt", [5, 6, 7])] (lit "a.txt")).length ∧
           keptBody
             (mainStep [] [(lit "a.txt", [5, 6, 7])]
               { initRunState none none none with
                 addedFiles := [(lit "a.txt", 2)], items := [(lit "a.txt", [9, 9])] }
               (lit "a.txt")) (lit "a.txt") =
             some (storedVersion
               { initRunState none none none with
                 addedFiles := [(lit "a.txt", 2)], items := [(lit "a.txt", [9, 9])] }
               (lit "a.txt") (fragRead [(lit "a.txt", [5, 6, 7])] (lit "a.txt")))) ∧
        (¬ sz < (fragRead [(lit "a.txt", [5, 6, 7])] (lit "a.txt")).length →
           mainStep [] [(lit "a.txt", [5, 6, 7])]
             { initRunState none none none with
               addedFiles := [(lit "a.txt", 2)], items := [(lit "a.txt", [9, 9])] }
             (lit "a.txt") =
           { initRunState none none none with
             addedFiles := [(lit "a.txt", 2)], items := [(lit "a.txt", [9, 9])] }))) :=
  ⟨by decide,
   mergeDecisionRule [] [(lit "a.txt", [5, 6, 7])]
     { initRunState none none none with
       addedFiles := [(lit "a.txt", 2)], items := [(lit "a.txt", [9, 9])] }
     (lit "a.txt") (by decide)⟩

/-! ## Cover reference selection during package document extraction -/

/-- The claimed cover selection, following the specification words: the href
of the first manifest item whose id matches the cover id; only failing any id
match, the href of the first item whose properties carry the cover-image
marker.  This definition follows the claim, to be compared with the manifest
walk of the source. -/
def coverHrefClaimed (coverId : Option Text) (els : List XmlTree) : Option Text :=
  match els.find? (fun el => idMatches coverId (xmlGet el (lit "id"))) with
  | some el => xmlGet el (lit "href")
  | none =>
    match els.find? (fun el => containsSub (lit "cover-image") (xmlGetD el (lit "properties") [])) with
    | some el => xmlGet el (lit "href")
    | none => none

/-- A manifest item carrying the cover-image property, before the item whose
id matches the cover id. -/
def covItemA : XmlTree :=
  XmlTree.node (lit "item")
    [(lit "id", lit "a"), (lit "href", lit "h1"), (lit "properties", lit "cover-image")] none []

/-- The manifest item whose id matches the cover id, listed second. -/
def covItemB : XmlTree :=
  XmlTree.node (lit "item") [(lit "id", lit "cov"), (lit "href", lit "h2")] none []

/-- Claim C4, counterexample: with cover id cov, a manifest listing first an
item with the cover-image property and then the item with the matching id,
the source records the href of the property item, not the href of the id
matching item the claim prescribes. -/
theorem coverScan_order_counterexample :
    (manifestFold (ManifestState.mk [] (some (lit "cov")) none) [covItemA, covItemB]).coverHref =
      some (lit "h1") ∧
    coverHrefClaimed (some (lit "cov")) [covItemA, covItemB] = some (lit "h2") ∧
    (manifestFold (ManifestState.mk [] (some (lit "cov")) none) [covItemA, covItemB]).coverHref ≠
      coverHrefClaimed (some (lit "cov")) [covItemA, covItemB] := by
  decide

/-- A scan hit for one manifest item: either its id matches the current cover
id, or its properties contain the cover-image marker. -/
def itemHit (cid : Option Text) (el : XmlTree) : Bool :=
  idMatches cid (xmlGet el (lit "id")) ||
  containsSub (lit "cover-image") (xmlGetD el (lit "properties") [])

theorem manifestStep_no_hit (s : ManifestState) (el : XmlTree)
    (h : itemHit s.coverId el = false) :
    (manifestStep s el).coverId = s.coverId ∧ (manifestStep s el).coverHref = s.coverHref := by
  rw [itemHit, Bool.or_eq_false_iff] at h
  simp [manifestStep, h.1, h.2]

theorem manifestStep_hit (s : ManifestState) (el : XmlTree) (h : Text)
    (hnone : s.coverHref = none)
    (hit : itemHit s.coverId el = true) (hhref : xmlGet el (lit "href") = some h) :
    (manifestStep s el).coverHref = some h := by
  rw [itemHit] at hit
  by_cases hid : idMatches s.coverId (xmlGet el (lit "id")) = true
  · simp only [manifestStep, hid, hnone, hhref, truthyOpt, true_and]
    split
    · split <;> rfl
    · simp_all
  · have hprop : containsSub (lit "cover-image") (xmlGetD el (lit "properties") []) = true := by
      rcases Bool.or_eq_true_iff.mp hit with hh | hh
      · exact absurd hh hid
      · exact hh
    simp [manifestStep, hid, hprop, hnone, hhref, truthyOpt]

theorem manifestStep_keeps_truthy (s : ManifestState) (el : XmlTree)
    (h : truthyOpt s.coverHref = true) :
    (manifestStep s el).coverHref = s.coverHref := by
  simp [manifestStep, h]

theorem manifestFold_keeps_truthy (els : List XmlTree) :
    ∀ s : ManifestState, truthyOpt s.coverHref = true →
      (manifestFold s els).coverHref = s.coverHref := by
  induction els with
  | nil => intro s _; rfl
  | cons el rest ih =>
    intro s h
    have hstep := manifestStep_keeps_truthy s el h
    have htr : truthyOpt (manifestStep s el).coverHref = true := by rw [hstep]; exact h
    calc (manifestFold (manifestStep s el) rest).coverHref
        = (manifestStep s el).coverHref := ih _ htr
      _ = s.coverHref := hstep

theorem coverScanAux (h : Text) (it : XmlTree)
    (hhref : xmlGet it (lit "href") = some h) (hne : h ≠ []) :
    ∀ (pre : List XmlTree) (post : List XmlTree) (s : ManifestState),
      (∀ el ∈ pre, itemHit s.coverId el = false) →
      itemHit s.coverId it = true →
      s.coverHref = none →
      (List.foldl manifestStep s (pre ++ it :: post)).coverHref = some h := by
  intro pre
  induction pre with
  | nil =>
    intro post s _ hit hnone
    simp only [List.nil_append, List.foldl_cons]
    have hstep : (manifestStep s it).coverHref = some h := manifestStep_hit s it h hnone hit hhref
    have htr : truthyOpt (manifestStep s it).coverHref = true := by
      rw [hstep]
      simp [truthyOpt, hne]
    calc (List.foldl manifestStep (manifestStep s it) post).coverHref
        = (manifestStep s it).coverHref := manifestFold_keeps_truthy post _ htr
      _ = some h := hstep
  | cons el rest ih =>
    intro post s hpre hit hnone
    simp only [List.cons_append, List.foldl_cons]
    obtain ⟨p₁, p₂⟩ := manifestStep_no_hit s el (hpre el (List.mem_cons_self el rest))
    refine ih post (manifestStep s el) ?_ ?_ (p₂.trans hnone)
    · intro x hx
      rw [p₁]
      exact hpre x (List.mem_cons_of_mem el hx)
    · rw [p₁]
      exact hit

/-- Claim C4, amended: the cover href is decided by one left to right manifest
scan; the first item that either matches the current cover id by id or
carries the cover-image marker in its properties sets the cover href to its
own href (the id test is checked first within an item, and a property hit also
rewrites the cover id), and once the cover href is set to a non empty value it
is never overwritten.  In particular an earlier property carrying item beats a
later id matching item. -/
theorem coverScan_first_hit (cid : Option Text) (idh : List (Text × Text))
    (pre post : List XmlTree) (it : XmlTree) (h : Text)
    (hpre : ∀ el ∈ pre, itemHit cid el = false)
    (hit : itemHit cid it = true)
    (hhref : xmlGet it (lit "href") = some h) (hne : h ≠ []) :
    (manifestFold (ManifestState.mk idh cid none) (pre ++ it :: post)).coverHref = some h :=
  coverScanAux h it hhref hne pre post (ManifestState.mk idh cid none) hpre hit rfl

/-- Witness for claim C4 at concrete inputs: a single hit item followed by a
later id matching item keeps the first href. -/
theorem coverScan_first_hit_witness :
    itemHit (some (lit "cov")) covItemA = true ∧
    (manifestFold (ManifestState.mk [] (some (lit "cov")) none) ([] ++ covItemA :: [covItemB])).coverHref =
      some (lit "h1") :=
  ⟨by decide,
   coverScan_first_hit (some (lit "cov")) [] [] [covItemB] covItemA (lit "h1")
     (fun el hel => absurd hel (List.not_mem_nil el)) (by decide) (by decide) (by decide)⟩

/-! ## Spine tracking lemmas -/

theorem cssStep_spine (f : Fragment) (st : RunState) (n : Text) :
    (cssStep f st n).spine = st.spine := by
  simp only [cssStep]
  split
  · split
    · rfl
    · split <;> rfl
  · rfl

theorem applyOpf_keeps (st : RunState) (m : OpfResult) :
    (applyOpf st m).addedFiles = st.addedFiles ∧ (applyOpf st m).cssCache = st.cssCache ∧
    (applyOpf st m).items = st.items ∧ (applyOpf st m).spine = st.spine ∧
    (applyOpf st m).toc = st.toc := by
  simp only [applyOpf]
  repeat' split
  all_goals exact ⟨rfl, rfl, rfl, rfl, rfl⟩

theorem opfScan_keeps (px : List Nat → Option XmlTree) (f : Fragment) :
    ∀ (names : List Text) (st : RunState),
      (opfScan px f st names).addedFiles = st.addedFiles ∧
      (opfScan px f st names).cssCache = st.cssCache ∧
      (opfScan px f st names).items = st.items ∧
      (opfScan px f st names).spine = st.spine ∧
      (opfScan px f st names).toc = st.toc := by
  intro names
  induction names with
  | nil => intro st; exact ⟨rfl, rfl, rfl, rfl, rfl⟩
  | cons n rest ih =>
    intro st
    simp only [opfScan]
    split
    · exact applyOpf_keeps st _
    · exact ih st

/-- A generic projection preservation lemma for state folds. -/
theorem foldl_pres {α γ : Type} (proj : RunState → γ) (step : RunState → α → RunState)
    (h : ∀ s a, proj (step s a) = proj s) :
    ∀ (l : List α) (s : RunState), proj (l.foldl step s) = proj s := by
  intro l
  induction l with
  | nil => intro s; rfl
  | cons a rest ih =>
    intro s
    calc proj ((a :: rest).foldl step s) = proj (step s a) := ih (step s a)
      _ = proj s := h s a

/-- A generic append only lemma for state folds on the spine. -/
theorem foldl_spine_extends {α : Type} (step : RunState → α → RunState)
    (hstep : ∀ s a, ∃ t, (step s a).spine = s.spine ++ t) :
    ∀ (l : List α) (s : RunState), ∃ t, (l.foldl step s).spine = s.spine ++ t := by
  intro l
  induction l with
  | nil => intro s; exact ⟨[], by simp⟩
  | cons a rest ih =>
    intro s
    obtain ⟨t₁, h₁⟩ := hstep s a
    obtain ⟨t₂, h₂⟩ := ih (step s a)
    exact ⟨t₁ ++ t₂, by rw [List.foldl_cons, h₂, h₁, List.append_assoc]⟩

/-- The exact spine effect of one merge step: one entry is appended for an
accepted page document not excluded as a navigation page under a
pre-paginated layout; every other name leaves the spine unchanged. -/
theorem mainStep_spine (filesInToc : List (Text × Text)) (f : Fragment) (st : RunState)
    (n : Text) :
    (mainStep filesInToc f st n).spine =
      if endsWithT n (lit ".css") = false ∧ shouldAddFile st.addedFiles f n = true ∧
         endsWithT n (lit "html") = true ∧
         ¬ (navNames.any (fun x => containsSub x (toLowerT n)) = true ∧
            st.renditionLayout = some (lit "pre-paginated"))
      then st.spine ++ [(n, pickSpineProps st.spineProps n)] else st.spine := by
  cases hcss : endsWithT n (lit ".css") with
  | true =>
    rw [mainStep_skip filesInToc f st n (Or.inl hcss), if_neg (by simp)]
  | false =>
    cases hsa : shouldAddFile st.addedFiles f n with
    | false => rw [mainStep_skip filesInToc f st n (Or.inr hsa), if_neg (by simp)]
    | true =>
      rw [mainStep_accept filesInToc f st n hcss hsa]
      cases hh : endsWithT n (lit "html") with
      | false => simp
      | true =>
        by_cases hnav : navNames.any (fun x => containsSub x (toLowerT n)) = true ∧
            st.renditionLayout = some (lit "pre-paginated")
        · rw [if_pos rfl]
          show (if navNames.any (fun x => containsSub x (toLowerT n)) = true ∧
                  st.renditionLayout = some (lit "pre-paginated") then st.spine
                else st.spine ++ [(n, pickSpineProps st.spineProps n)]) =
            (if false = false ∧ true = true ∧ true = true ∧
                ¬ (navNames.any (fun x => containsSub x (toLowerT n)) = true ∧
                   st.renditionLayout = some (lit "pre-paginated"))
             then st.spine ++ [(n, pickSpineProps st.spineProps n)] else st.spine)
          rw [if_pos hnav, if_neg (fun hc => hc.2.2.2 hnav)]
        · rw [if_pos rfl]
          show (if navNames.any (fun x => containsSub x (toLowerT n)) = true ∧
                  st.renditionLayout = some (lit "pre-paginated") then st.spine
                else st.spine ++ [(n, pickSpineProps st.spineProps n)]) =
            (if false = false ∧ true = true ∧ true = true ∧
                ¬ (navNames.any (fun x => containsSub x (toLowerT n)) = true ∧
                   st.renditionLayout = some (lit "pre-paginated"))
             then st.spine ++ [(n, pickSpineProps st.spineProps n)] else st.spine)
          rw [if_neg hnav, if_pos ⟨rfl, rfl, rfl, hnav⟩]

theorem mainStep_spine_extends (filesInToc : List (Text × Text)) (f : Fragment) :
    ∀ (s : RunState) (n : Text), ∃ t, (mainStep filesInToc f s n).spine = s.spine ++ t := by
  intro s n
  rw [mainStep_spine]
  split
  · exact ⟨[(n, pickSpineProps s.spineProps n)], rfl⟩
  · exact ⟨[], by simp⟩

theorem processFragment_spine_extends (px : List Nat → Option XmlTree)
    (filesInToc : List (Text × Text)) (st : RunState) (f : Fragment) :
    ∃ t, (processFragment px filesInToc st f).spine = st.spine ++ t := by
  rw [processFragment]
  obtain ⟨t, ht⟩ := foldl_spine_extends (mainStep filesInToc f)
    (mainStep_spine_extends filesInToc f) (namelist f)
    ((namelist f).foldl (cssStep f)
      (if st.opfExtracted then st else opfScan px f st (namelist f)))
  refine ⟨t, ?_⟩
  rw [ht, foldl_pres RunState.spine (cssStep f) (fun s a => cssStep_spine f s a)]
  congr 1
  split
  · rfl
  · exact (opfScan_keeps px f (namelist f) st).2.2.2.1

/-- Claim C5, counterexample: a page path whose strictly larger version
arrives in a later fragment is appended to the spine again, so it occurs twice
instead of once. -/
theorem spine_duplicate_on_replacement :
    ((processFragment (fun _ => none) []
        (processFragment (fun _ => none) [] (initRunState none none none)
          [(lit "p.xhtml", [104])])
        [(lit "p.xhtml", [104, 105])]).spine.map Prod.fst) =
      [lit "p.xhtml", lit "p.xhtml"] ∧
    [lit "p.xhtml", lit "p.xhtml"] ≠ [lit "p.xhtml"] := by
  decide

/-- Claim C5, amended: the spine is append only, so the relative
first-insertion order of page paths is preserved through every fragment, and
each merge step appends exactly one spine entry for an accepted page document
(and none otherwise); since a strictly larger replacement is also an
acceptance, a replaced page path is appended once per accepted version rather
than occurring exactly once. -/
theorem spineTracking (px : List Nat → Option XmlTree) (filesInToc : List (Text × Text))
    (st : RunState) (f : Fragment) (n : Text) :
    (∃ t, (processFragment px filesInToc st f).spine = st.spine ++ t) ∧
    ((mainStep filesInToc f st n).spine =
      if endsWithT n (lit ".css") = false ∧ shouldAddFile st.addedFiles f n = true ∧
         endsWithT n (lit "html") = true ∧
         ¬ (navNames.any (fun x => containsSub x (toLowerT n)) = true ∧
            st.renditionLayout = some (lit "pre-paginated"))
      then st.spine ++ [(n, pickSpineProps st.spineProps n)] else st.spine) :=
  ⟨processFragment_spine_extends px filesInToc st f, mainStep_spine filesInToc f st n⟩

/-! ## Idempotence of fragment merging -/

theorem shouldAddFile_true_of_some (added : List (Text × Nat)) (f : Fragment) (n : Text)
    (sz : Nat) (hsa : shouldAddFile added f n = true) (hl : lookupAssoc n added = some sz) :
    sz < (fragRead f n).length := by
  rw [shouldAddFile] at hsa
  split at hsa
  · cases hsa
  · split at hsa
    · cases hsa
    · split at hsa
      · cases hsa
      · rw [hl] at hsa
        simpa using hsa

theorem mainStep_accept_addedFiles (filesInToc : List (Text × Text)) (f : Fragment)
    (st : RunState) (n : Text) (hcss : endsWithT n (lit ".css") = false)
    (hsa : shouldAddFile st.addedFiles f n = true) :
    (mainStep filesInToc f st n).addedFiles = setAssoc n (fragRead f n).length st.addedFiles := by
  rw [mainStep_accept filesInToc f st n hcss hsa]
  split <;> rfl

theorem mainStep_mono (filesInToc : List (Text × Text)) (f : Fragment) (st : RunState)
    (n x : Text) (m : Nat) (h : lookupAssoc x st.addedFiles = some m) :
    ∃ m₂, lookupAssoc x (mainStep filesInToc f st n).addedFiles = some m₂ ∧ m ≤ m₂ := by
  cases hcss : endsWithT n (lit ".css") with
  | true => exact ⟨m, by rw [mainStep_skip filesInToc f st n (Or.inl hcss)]; exact h, Nat.le_refl m⟩
  | false =>
    cases hsa : shouldAddFile st.addedFiles f n with
    | false =>
      exact ⟨m, by rw [mainStep_skip filesInToc f st n (Or.inr hsa)]; exact h, Nat.le_refl m⟩
    | true =>
      have haf := mainStep_accept_addedFiles filesInToc f st n hcss hsa
      by_cases hx : x = n
      · subst hx
        refine ⟨(fragRead f x).length, ?_, ?_⟩
        · rw [haf]
          exact lookupAssoc_setAssoc_self x _ st.addedFiles
        · exact Nat.le_of_lt (shouldAddFile_true_of_some st.addedFiles f x m hsa h)
      · refine ⟨m, ?_, Nat.le_refl m⟩
        rw [haf, lookupAssoc_setAssoc_ne n x _ st.addedFiles hx]
        exact h

theorem mainFold_mono (filesInToc : List (Text × Text)) (f : Fragment) :
    ∀ (names : List Text) (st : RunState) (x : Text) (m : Nat),
      lookupAssoc x st.addedFiles = some m →
      ∃ m₂, lookupAssoc x ((names.foldl (mainStep filesInToc f) st).addedFiles) = some m₂ ∧
            m ≤ m₂ := by
  intro names
  induction names with
  | nil => intro st x m h; exact ⟨m, h, Nat.le_refl m⟩
  | cons n rest ih =>
    intro st x m h
    obtain ⟨m₁, h₁, hle₁⟩ := mainStep_mono filesInToc f st n x m h
    obtain ⟨m₂, h₂, hle₂⟩ := ih (mainStep filesInToc f st n) x m₁ h₁
    exact ⟨m₂, h₂, Nat.le_trans hle₁ hle₂⟩

theorem mainStep_self_post (filesInToc : List (Text × Text)) (f : Fragment) (st : RunState)
    (n : Text) (hex : mergeExcludedB n = false) :
    ∃ m, lookupAssoc n (mainStep filesInToc f st n).addedFiles = some m ∧
         (fragRead f n).length ≤ m := by
  have hcss := notExcl_css hex
  cases hl : lookupAssoc n st.addedFiles with
  | none =>
    have hsa : shouldAddFile st.addedFiles f n = true := by
      rw [shouldAddFile_eval st.addedFiles f n hex, hl]
    refine ⟨(fragRead f n).length, ?_, Nat.le_refl _⟩
    rw [mainStep_accept_addedFiles filesInToc f st n hcss hsa]
    exact lookupAssoc_setAssoc_self n _ st.addedFiles
  | some sz =>
    by_cases hlt : sz < (fragRead f n).length
    · have hsa : shouldAddFile st.addedFiles f n = true := by
        rw [shouldAddFile_eval st.addedFiles f n hex, hl]
        simpa using hlt
      refine ⟨(fragRead f n).length, ?_, Nat.le_refl _⟩
      rw [mainStep_accept_addedFiles filesInToc f st n hcss hsa]
      exact lookupAssoc_setAssoc_self n _ st.addedFiles
    · have hsa : shouldAddFile st.addedFiles f n = false := by
        rw [shouldAddFile_eval st.addedFiles f n hex, hl]
        simpa using hlt
      refine ⟨sz, ?_, Nat.le_of_not_lt hlt⟩
      rw [mainStep_skip filesInToc f st n (Or.inr hsa)]
      exact hl

theorem mainFold_post (filesInToc : List (Text × Text)) (f : Fragment) :
    ∀ (names : List Text) (st : RunState) (n : Text),
      n ∈ names → mergeExcludedB n = false →
      ∃ m, lookupAssoc n ((names.foldl (mainStep filesInToc f) st).addedFiles) = some m ∧
           (fragRead f n).length ≤ m := by
  intro names
  induction names with
  | nil => intro st n hn; cases hn
  | cons n₀ rest ih =>
    intro st n hn hex
    rw [List.foldl_cons]
    rcases List.mem_cons.mp hn with rfl | hmem
    · obtain ⟨m, hm, hle⟩ := mainStep_self_post filesInToc f st n hex
      obtain ⟨m₂, hm₂, hle₂⟩ := mainFold_mono filesInToc f rest (mainStep filesInToc f st n) n m hm
      exact ⟨m₂, hm₂, Nat.le_trans hle hle₂⟩
    · exact ih (mainStep filesInToc f st n₀) n hmem hex

theorem mainStep_noop (filesInToc : List (Text × Text)) (f : Fragment) (st : RunState) (n : Text)
    (h : mergeExcludedB n = true ∨
         ∃ m, lookupAssoc n st.addedFiles = some m ∧ (fragRead f n).length ≤ m) :
    mainStep filesInToc f st n = st := by
  cases hcss : endsWithT n (lit ".css") with
  | true => exact mainStep_skip filesInToc f st n (Or.inl hcss)
  | false =>
    refine mainStep_skip filesInToc f st n (Or.inr ?_)
    rw [shouldAddFile]
    split
    · rfl
    · split
      · rfl
      · split
        · rfl
        · rcases h with h | ⟨m, hm, hle⟩
          · exfalso
            rw [mergeExcludedB, hcss] at h
            simp_all
          · rw [hm]
            exact decide_eq_false (Nat.not_lt_of_ge hle)

theorem mainFold_noop (filesInToc : List (Text × Text)) (f : Fragment) :
    ∀ (names : List Text) (st : RunState),
      (∀ n ∈ names, mergeExcludedB n = true ∨
         ∃ m, lookupAssoc n st.addedFiles = some m ∧ (fragRead f n).length ≤ m) →
      names.foldl (mainStep filesInToc f) st = st := by
  intro names
  induction names with
  | nil => intro st _; rfl
  | cons n₀ rest ih =>
    intro st hinv
    rw [List.foldl_cons, mainStep_noop filesInToc f st n₀ (hinv n₀ (List.mem_cons_self n₀ rest))]
    exact ih st (fun n hn => hinv n (List.mem_cons_of_mem n₀ hn))

theorem cssStep_keeps (f : Fragment) (st : RunState) (n : Text) :
    (cssStep f st n).addedFiles = st.addedFiles ∧ (cssStep f st n).items = st.items ∧
    (cssStep f st n).spine = st.spine ∧ (cssStep f st n).toc = st.toc ∧
    (cssStep f st n).opfExtracted = st.opfExtracted := by
  simp only [cssStep]
  split
  · split
    · exact ⟨rfl, rfl, rfl, rfl, rfl⟩
    · split <;> exact ⟨rfl, rfl, rfl, rfl, rfl⟩
  · exact ⟨rfl, rfl, rfl, rfl, rfl⟩

theorem mainStep_opfExtracted (filesInToc : List (Text × Text)) (f : Fragment) (st : RunState)
    (n : Text) : (mainStep filesInToc f st n).opfExtracted = st.opfExtracted := by
  cases hcss : endsWithT n (lit ".css") with
  | true => rw [mainStep_skip filesInToc f st n (Or.inl hcss)]
  | false =>
    cases hsa : shouldAddFile st.addedFiles f n with
    | false => rw [mainStep_skip filesInToc f st n (Or.inr hsa)]
    | true =>
      rw [mainStep_accept filesInToc f st n hcss hsa]
      split <;> rfl

theorem applyOpf_flag (st : RunState) (m : OpfResult) : (applyOpf st m).opfExtracted = true := by
  simp only [applyOpf]

theorem opfScan_no_opf (px : List Nat → Option XmlTree) (f : Fragment) :
    ∀ (names : List Text) (st : RunState),
      (∀ n ∈ names, endsWithT n (lit ".opf") = false) → opfScan px f st names = st := by
  intro names
  induction names with
  | nil => intro st _; rfl
  | cons n₀ rest ih =>
    intro st h
    simp only [opfScan]
    rw [if_neg (by simp [h n₀ (List.mem_cons_self n₀ rest)])]
    exact ih st (fun n hn => h n (List.mem_cons_of_mem n₀ hn))

theorem opfScan_flag_false (px : List Nat → Option XmlTree) (f : Fragment) :
    ∀ (names : List Text) (st : RunState),
      (opfScan px f st names).opfExtracted = false →
      ∀ n ∈ names, endsWithT n (lit ".opf") = false := by
  intro names
  induction names with
  | nil => intro st _ n hn; cases hn
  | cons n₀ rest ih =>
    intro st hflag n hn
    simp only [opfScan] at hflag
    by_cases hopf : endsWithT n₀ (lit ".opf") = true
    · rw [if_pos hopf, applyOpf_flag] at hflag
      cases hflag
    · have hopf₂ : endsWithT n₀ (lit ".opf") = false := by
        cases hv : endsWithT n₀ (lit ".opf")
        · rfl
        · exact absurd hv hopf
      rw [if_neg (by simp [hopf₂])] at hflag
      rcases List.mem_cons.mp hn with rfl | hmem
      · exact hopf₂
      · exact ih st hflag n hmem

/-- Claim C6: merging the same fragment twice leaves the kept file registry,
the item list, the spine and the toc exactly as after merging it once: every
path of the fragment is already registered with at least its recorded size
after the first pass, so the second pass accepts nothing, re-counts nothing
and replaces nothing when it sees equal sizes. -/
theorem mergeIdempotent (px : List Nat → Option XmlTree) (filesInToc : List (Text × Text))
    (st : RunState) (f : Fragment) :
    (processFragment px filesInToc (processFragment px filesInToc st f) f).addedFiles =
      (processFragment px filesInToc st f).addedFiles ∧
    (processFragment px filesInToc (processFragment px filesInToc st f) f).items =
      (processFragment px filesInToc st f).items ∧
    (processFragment px filesInToc (processFragment px filesInToc st f) f).spine =
      (processFragment px filesInToc st f).spine ∧
    (processFragment px filesInToc (processFragment px filesInToc st f) f).toc =
      (processFragment px filesInToc st f).toc := by
  have hpost : ∀ n ∈ namelist f, mergeExcludedB n = false →
      ∃ m, lookupAssoc n (processFragment px filesInToc st f).addedFiles = some m ∧
           (fragRead f n).length ≤ m := by
    intro n hn hex
    rw [processFragment]
    exact mainFold_post filesInToc f (namelist f) _ n hn hex
  have hflageq : (processFragment px filesInToc st f).opfExtracted =
      (if st.opfExtracted then st else opfScan px f st (namelist f)).opfExtracted := by
    rw [processFragment,
        foldl_pres RunState.opfExtracted (mainStep filesInToc f)
          (fun s a => mainStep_opfExtracted filesInToc f s a),
        foldl_pres RunState.opfExtracted (cssStep f)
          (fun s a => (cssStep_keeps f s a).2.2.2.2)]
  have hopf₂ : (if (processFragment px filesInToc st f).opfExtracted then
        processFragment px filesInToc st f
      else opfScan px f (processFragment px filesInToc st f) (namelist f)) =
      processFragment px filesInToc st f := by
    by_cases hfl : (processFragment px filesInToc st f).opfExtracted = true
    · rw [if_pos hfl]
    · have hfl₂ : (processFragment px filesInToc st f).opfExtracted = false := by
        cases hv : (processFragment px filesInToc st f).opfExtracted
        · rfl
        · exact absurd hv hfl
      rw [if_neg (by simp [hfl₂])]
      refine opfScan_no_opf px f (namelist f) _ ?_
      rw [hfl₂] at hflageq
      by_cases hst : st.opfExtracted = true
      · rw [if_pos hst, hst] at hflageq
        cases hflageq
      · have hst₂ : st.opfExtracted = false := by
          cases hv : st.opfExtracted
          · rfl
          · exact absurd hv hst
        rw [if_neg (by simp [hst₂])] at hflageq
        exact opfScan_flag_false px f (namelist f) st hflageq.symm
  have hnoop : (namelist f).foldl (mainStep filesInToc f)
      ((namelist f).foldl (cssStep f) (processFragment px filesInToc st f)) =
      (namelist f).foldl (cssStep f) (processFragment px filesInToc st f) := by
    apply mainFold_noop
    intro n hn
    by_cases hex : mergeExcludedB n = true
    · exact Or.inl hex
    · have hex₂ : mergeExcludedB n = false := by
        cases hv : mergeExcludedB n
        · rfl
        · exact absurd hv hex
      obtain ⟨m, hm, hle⟩ := hpost n hn hex₂
      refine Or.inr ⟨m, ?_, hle⟩
      rw [foldl_pres RunState.addedFiles (cssStep f) (fun s a => (cssStep_keeps f s a).1)]
      exact hm
  have hfinal : processFragment px filesInToc (processFragment px filesInToc st f) f =
      (namelist f).foldl (cssStep f) (processFragment px filesInToc st f) := by
    conv_lhs => rw [processFragment]
    rw [hopf₂, hnoop]
  refine ⟨?_, ?_, ?_, ?_⟩ <;> rw [hfinal]
  · exact foldl_pres RunState.addedFiles (cssStep f) (fun s a => (cssStep_keeps f s a).1)
      (namelist f) _
  · exact foldl_pres RunState.items (cssStep f) (fun s a => (cssStep_keeps f s a).2.1)
      (namelist f) _
  · exact foldl_pres RunState.spine (cssStep f) (fun s a => (cssStep_keeps f s a).2.2.1)
      (namelist f) _
  · exact foldl_pres RunState.toc (cssStep f) (fun s a => (cssStep_keeps f s a).2.2.2.1)
      (namelist f) _

end Grawlix
